import Mathlib

set_option maxRecDepth 4000
set_option linter.unnecessarySeqFocus false
set_option linter.unusedVariables false
set_option linter.unreachableTactic false
set_option linter.unusedTactic false

/-
  Verification development for the py-motmetrics core
  (src/motmetrics/lap.py and src/motmetrics/metrics.py).

  Python floating point values are embedded as the type FV below: a
  finite rational, or one of the non-finite markers NaN / +inf / -inf.
  The munkres DISALLOWED sentinel object is a further constructor, used
  only by the munkres adapter model.  Matrices are lists of rows.
-/

inductive FV where
  | fin (q : ℚ)
  | nan
  | inf
  | ninf
  | disallowed
deriving DecidableEq

/-- np.isfinite: true exactly on finite numeric values. -/
def FV.isFinite : FV → Bool
  | .fin _ => true
  | _ => false

/-- The finite payload of a value, if any. -/
def FV.toFinite : FV → Option ℚ
  | .fin q => some q
  | _ => none

/-- Row-major list of the finite entries of a matrix; embeds costs[~inv]
(numpy boolean-mask extraction flattens in row-major order). -/
def finiteVals (m : List (List FV)) : List ℚ :=
  (m.map (fun row => row.filterMap FV.toFinite)).flatten

/-- inv.any() for inv = ~np.isfinite(costs). -/
def anyNonFinite (m : List (List FV)) : Bool :=
  m.any (fun row => row.any (fun v => !v.isFinite))

/-- valid.max() of a nonempty value list (np.max; junk 0 on []). -/
def listMaxQ : List ℚ → ℚ
  | [] => 0
  | q :: qs => qs.foldl max q

/-- lap.py line 49: INVDIST = 2 * valid.max() + 1 if valid.shape[0] > 0 else 1. -/
def INVDIST (m : List (List FV)) : ℚ :=
  if finiteVals m = [] then 1 else 2 * listMaxQ (finiteVals m) + 1

/-- lap.py lines 45-50: when any entry is non-finite, copy the matrix and
overwrite the non-finite entries with INVDIST; otherwise pass it through. -/
def scipyPre (m : List (List FV)) : List (List FV) :=
  if anyNonFinite m then
    m.map (fun row => row.map (fun v => if v.isFinite then v else FV.fin (INVDIST m)))
  else m

def toQ : FV → ℚ
  | FV.fin q => q
  | _ => 0

def toQmat (m : List (List FV)) : List (List ℚ) := m.map (fun row => row.map toQ)

/-- Number of columns of a matrix (costs.shape[1]). -/
def width (m : List (List FV)) : Nat := (m.headD []).length

/-- Optional entry access costs[i, j]. -/
def entryF (m : List (List FV)) (i j : Nat) : Option FV := (m.getD i []).get? j

/-- All length-k sequences of pairwise-distinct values below m. -/
def injSeqs : Nat → Nat → List (List Nat)
  | 0, _ => [[]]
  | k + 1, m =>
      ((List.range m).map (fun c =>
        (injSeqs k m).filterMap (fun t => if c ∈ t then none else some (c :: t)))).flatten

/-- First minimum of f over a list (none on []). -/
def argminQ (f : α → ℚ) : List α → Option α
  | [] => none
  | x :: xs =>
      match argminQ f xs with
      | none => some x
      | some y => if f y < f x then some y else some x

def entryQ (c : List (List ℚ)) (r j : Nat) : ℚ := (c.getD r []).getD j 0

def assignCost (c : List (List ℚ)) (pairs : List (Nat × Nat)) : ℚ :=
  (pairs.map (fun p => entryQ c p.1 p.2)).sum

/-- Insert a pair into a row-sorted pair list. -/
def insPair (p : Nat × Nat) : List (Nat × Nat) → List (Nat × Nat)
  | [] => [p]
  | q :: qs => if p.1 ≤ q.1 then p :: q :: qs else q :: insPair p qs

/-- Insertion sort of index pairs by row index. -/
def insSortPairs : List (Nat × Nat) → List (Nat × Nat)
  | [] => []
  | p :: ps => insPair p (insSortPairs ps)

/-- Model of the external scipy.optimize.linear_sum_assignment on a finite
cost matrix, per its documented contract (the spec's Assignment Result,
section 3): a complete minimum-cost assignment of min(n, m) pairs over
distinct rows and distinct columns, returned as (row_ind, col_ind) with
row_ind ascending.  Ties are broken by the enumeration order. -/
def scipySolveModel (c : List (List ℚ)) : List Nat × List Nat :=
  let n := c.length
  let m := (c.headD []).length
  if n ≤ m then
    match argminQ (fun cols => assignCost c ((List.range n).zip cols)) (injSeqs n m) with
    | some cols => (List.range n, cols)
    | none => ([], [])
  else
    match argminQ (fun rows => assignCost c (rows.zip (List.range m))) (injSeqs m n) with
    | some rows =>
        let pairs := insSortPairs (rows.zip (List.range m))
        (pairs.map Prod.fst, pairs.map Prod.snd)
    | none => ([], [])

/-- lap.py lines 34-52 (lsa_solve_scipy): substitute INVDIST for the
non-finite entries, then call scipy's solver on the resulting finite
matrix. -/
def lsa_solve_scipy (costs : List (List FV)) : List Nat × List Nat :=
  scipySolveModel (toQmat (scipyPre costs))

-- Quick sanity checks of the embedding on concrete inputs.
example : INVDIST [[FV.fin 3, FV.nan], [FV.fin 1, FV.fin 0]] = 7 := by
  simp [INVDIST, finiteVals, listMaxQ, FV.toFinite, List.filterMap] <;> norm_num
example : lsa_solve_scipy [[FV.fin 1, FV.fin 0], [FV.fin 0, FV.fin 1]] = ([0, 1], [1, 0]) := by
  norm_num [lsa_solve_scipy, scipySolveModel, toQmat, scipyPre, anyNonFinite, FV.isFinite, toQ,
    injSeqs, argminQ, assignCost, entryQ, List.getD, List.range_succ, List.filterMap]
example : lsa_solve_scipy [[FV.inf]] = ([0], [0]) := by
  norm_num [lsa_solve_scipy, scipySolveModel, toQmat, scipyPre, anyNonFinite, FV.isFinite, toQ,
    INVDIST, finiteVals, FV.toFinite, injSeqs, argminQ, assignCost, entryQ, List.getD,
    List.range_succ, List.filterMap]

/-
  The remaining lap.py backends.  The third-party engines (munkres,
  lapsolver, Google ortools) and the floating-point log10 scale-factor
  computation of lsa_solve_ortools (lap.py lines 93-112, which runs
  np.log10 on binary doubles) are external to the repository; they are
  abstracted as the fields of a LapEnv environment, while everything the
  adapters themselves do (sentinel substitution, arc construction,
  fallback control flow) is embedded concretely.
-/

/-- Outcome of the external ortools LinearSumAssignment engine: either the
solve is not OPTIMAL, or it is and the engine reports the node/mate
pairings (i, RightMate(i)) for i below NumNodes(). -/
inductive OrtoolsOutcome where
  | notOptimal
  | optimal (mates : List (Nat × Nat))

/-- The ambient solver configuration and the external solver engines. -/
structure LapEnv where
  defaultSolver : String
  scaleFactor : List (List FV) → ℚ
  ortoolsEngine : List (Nat × Nat × ℤ) → OrtoolsOutcome
  munkresCompute : List (List FV) → List (Nat × Nat)
  lapsolverSolve : List (List FV) → List Nat × List Nat

/-- Python int(): truncation of a rational toward zero. -/
def intPy (q : ℚ) : ℤ := if 0 ≤ q then ⌊q⌋ else ⌈q⌉

/-- str.lower() restricted to ASCII, which covers every solver name the
source ever compares. -/
def lowerChar (c : Char) : Char :=
  if 65 ≤ c.toNat ∧ c.toNat ≤ 90 then Char.ofNat (c.toNat + 32) else c

def lowerStr (s : String) : String := String.mk (s.data.map lowerChar)

/-- lap.py lines 59-71 (lsa_solve_munkres): copy the costs, replace any
non-finite entry by the DISALLOWED sentinel, run the external Munkres
engine, and split the returned pairs into two index columns. -/
def lsa_solve_munkres (env : LapEnv) (costs : List (List FV)) : List Nat × List Nat :=
  let costs1 :=
    if anyNonFinite costs then
      costs.map (fun row => row.map (fun v => if v.isFinite then v else FV.disallowed))
    else costs
  let pairs := env.munkresCompute costs1
  (pairs.map Prod.fst, pairs.map Prod.snd)

/-- lap.py lines 54-57 (lsa_solve_lapsolver): delegate to the external
solve_dense. -/
def lsa_solve_lapsolver (env : LapEnv) (costs : List (List FV)) : List Nat × List Nat :=
  env.lapsolverSolve costs

/-- lap.py lines 115-118: the arcs submitted to the ortools engine — one
arc (r, c, int(costs[r,c] * f)) per finite entry, in row-major order. -/
def ortoolsArcs (env : LapEnv) (costs : List (List FV)) : List (Nat × Nat × ℤ) :=
  let f := env.scaleFactor costs
  ((List.range costs.length).map (fun r =>
    (List.range (width costs)).filterMap (fun c =>
      match entryF costs r c with
      | some (FV.fin q) => some (r, c, intPy (q * f))
      | _ => none))).flatten

/-- Dispatch table of lap.py lines 26-31 restricted to the non-ortools
backends; an unknown name is the dict KeyError. -/
def dispatchNonOrtools (env : LapEnv) (s : String) (costs : List (List FV)) :
    Except String (List Nat × List Nat) :=
  if s = "lapsolver" then .ok (lsa_solve_lapsolver env costs)
  else if s = "scipy" then .ok (lsa_solve_scipy costs)
  else if s = "munkres" then .ok (lsa_solve_munkres env costs)
  else .error ("KeyError: " ++ s)

/-- lap.py lines 74-132 (lsa_solve_ortools).  If the engine does not reach
OPTIMAL, the source asserts default_solver != 'ortools' and re-solves the
original costs via linear_sum_assignment(costs, solver=default_solver);
since after the assert that dispatch cannot re-enter this adapter, the
recursive call is expanded here into the non-ortools dispatch (the
equivalence with linear_sum_assignment is proved below). -/
def lsa_solve_ortools (env : LapEnv) (costs : List (List FV)) :
    Except String (List Nat × List Nat) :=
  match env.ortoolsEngine (ortoolsArcs env costs) with
  | .notOptimal =>
      if env.defaultSolver = "ortools" then .error "AssertionError"
      else dispatchNonOrtools env (lowerStr env.defaultSolver) costs
  | .optimal mates =>
      if mates.length = 0 then .ok ([], [])
      else .ok (mates.map Prod.fst, mates.map Prod.snd)

/-- lap.py lines 3-32 (linear_sum_assignment): pick the requested solver or
the process default, lowercase the name, and dispatch. -/
def linear_sum_assignment (env : LapEnv) (solver : Option String)
    (costs : List (List FV)) : Except String (List Nat × List Nat) :=
  let s := lowerStr (solver.getD env.defaultSolver)
  if s = "ortools" then lsa_solve_ortools env costs
  else dispatchNonOrtools env s costs

/-
  Store-passing view of the two mutating adapters, for the frame-effect
  claim: numpy arrays live in a store of array slots, costs.copy() and
  costs.astype(object) allocate fresh slots, and the masked assignment
  costs[inv] = ... mutates the slot the local variable currently points
  to.  The caller's matrix is slot cid; fresh slots are cid-distinct.
-/

def Store : Type := Nat → List (List FV)

def storeSet (st : Store) (i : Nat) (m : List (List FV)) : Store :=
  fun j => if j = i then m else st j

/-- lsa_solve_scipy with the array store explicit: lap.py lines 45-52.
fid is the slot allocated by costs.copy(). -/
def lsa_solve_scipy_heap (st : Store) (cid fid : Nat) : Store × (List Nat × List Nat) :=
  if anyNonFinite (st cid) then
    let st1 := storeSet st fid (st cid)
    let st2 := storeSet st1 fid
      ((st1 fid).map (fun row => row.map
        (fun v => if v.isFinite then v else FV.fin (INVDIST (st1 fid)))))
    (st2, scipySolveModel (toQmat (st2 fid)))
  else (st, scipySolveModel (toQmat (st cid)))

/-- lsa_solve_munkres with the array store explicit: lap.py lines 62-71.
fid1 is the slot allocated by costs.copy(), fid2 the one allocated by
costs.astype(object). -/
def lsa_solve_munkres_heap (env : LapEnv) (st : Store) (cid fid1 fid2 : Nat) :
    Store × (List Nat × List Nat) :=
  let st1 := storeSet st fid1 (st cid)
  if anyNonFinite (st1 fid1) then
    let st2 := storeSet st1 fid2 (st1 fid1)
    let st3 := storeSet st2 fid2
      ((st2 fid2).map (fun row => row.map (fun v => if v.isFinite then v else FV.disallowed)))
    let pairs := env.munkresCompute (st3 fid2)
    (st3, (pairs.map Prod.fst, pairs.map Prod.snd))
  else
    let pairs := env.munkresCompute (st1 fid1)
    (st1, (pairs.map Prod.fst, pairs.map Prod.snd))

/-
  metrics.py embedding.  The Event Log (produced by motmetrics.mot, which
  is not part of this repository's core sources) is the spec's section 3
  contract: rows keyed by (FrameId, EventId) in increasing key order, with
  columns Type, OId, HId and D; OId/HId/D are nullable (pandas NaN is the
  none case of an Option).
-/

structure Row where
  frame : Nat
  eid : Nat
  typ : String
  oid : Option String
  hid : Option String
  d : Option ℚ
deriving DecidableEq

abbrev EventLog : Type := List Row

/-- float(df.Type.isin([t]).sum()). -/
def countType (df : EventLog) (t : String) : ℚ :=
  ((df.filter (fun r => r.typ = t)).length : ℚ)

/-- First-occurrence deduplication (pandas unique / value_counts key set). -/
def dedupKeys {α : Type} [DecidableEq α] : List α → List α
  | [] => []
  | k :: ks => k :: (dedupKeys ks).filter (fun x => x ≠ k)

/-- Series.value_counts(): one entry per distinct key with its number of
occurrences (null keys were dropped by the caller).  Pandas orders the
entries by descending count; every consumer in metrics.py is insensitive
to entry order (alignment is by key), so first-occurrence order is used. -/
def valueCounts (keys : List String) : List (String × ℚ) :=
  (dedupKeys keys).map (fun k => (k, (keys.count k : ℚ)))

/-- data['OId'].value_counts() — per-object occurrence counts (line 213). -/
def objCounts (df : EventLog) : List (String × ℚ) :=
  valueCounts (df.filterMap (fun r => r.oid))

/-- data[data.Type != 'MISS']['OId'].value_counts() (line 214). -/
def trackedCounts (df : EventLog) : List (String × ℚ) :=
  valueCounts ((df.filter (fun r => ¬ r.typ = "MISS")).filterMap (fun r => r.oid))

/-- tracked.div(objs).fillna(1.) (line 215): aligned by key over the keys
of objs (tracked keys are a subset); a key absent from tracked divides to
NaN and is filled with 1. -/
def trackRatioSeries (df : EventLog) : List (String × ℚ) :=
  (objCounts df).map (fun p =>
    match (trackedCounts df).lookup p.1 with
    | some t => (p.1, t / p.2)
    | none => (p.1, 1))

/-- Number of MISS/not-MISS rising edges in the 0/1 flag list — the count
of diffs == 1 after Series.diff() (lines 228-229). -/
def countRises : List ℤ → Nat
  | [] => 0
  | [_] => 0
  | a :: b :: t => (if b - a = 1 then 1 else 0) + countRises (b :: t)

def missFlag (r : Row) : ℤ := if r.typ = "MISS" then 1 else 0

/-- Position of the first non-MISS row, if any. -/
def firstNonMiss : List Row → Option Nat
  | [] => none
  | r :: rest =>
      if ¬ r.typ = "MISS" then some 0
      else (firstNonMiss rest).map (fun i => i + 1)

/-- Fragmentation contribution of one object (lines 219-229): restrict its
rows to the span from its first to its last non-MISS row (the index of the
log is strictly increasing, so the label slice dfo.loc[first:last] is the
inclusive positional slice) and count MISS rising edges. -/
def fragOf (df : EventLog) (o : String) : Nat :=
  let dfo := df.filter (fun r => r.oid = some o)
  match firstNonMiss dfo, firstNonMiss dfo.reverse with
  | some i0, some j =>
      let i1 := dfo.length - 1 - j
      countRises (((dfo.drop i0).take (i1 - i0 + 1)).map missFlag)
  | _, _ => 0

def fragTotal (df : EventLog) : Nat :=
  ((objCounts df).map (fun p => fragOf df p.1)).sum

/-- savediv = lambda a,b: a / b if b != 0 else np.nan (line 196). -/
def savediv (a b : ℚ) : FV := if b = 0 then FV.nan else FV.fin (a / b)

def fvOneSub : FV → FV
  | FV.fin q => FV.fin (1 - q)
  | v => v

/-- metrics.py lines 153-247 (compute_metrics): the standalone metric
table for one event log, as the ordered column-name/value list. -/
def compute_metrics (data : EventLog) : List (String × FV) :=
  let nframes : ℚ := ((dedupKeys (data.map (fun r => r.frame))).length : ℚ)
  let nmatch := countType data "MATCH"
  let nswitch := countType data "SWITCH"
  let nfp := countType data "FP"
  let nmiss := countType data "MISS"
  let nc := nmatch + nswitch
  let ng : ℚ := ((data.filterMap (fun r => r.oid)).length : ℚ)
  let dsum : ℚ := (data.filterMap (fun r => r.d)).sum
  let ratios := trackRatioSeries data
  [("Frames", FV.fin nframes),
   ("Match", FV.fin nmatch),
   ("Switch", FV.fin nswitch),
   ("FalsePos", FV.fin nfp),
   ("Miss", FV.fin nmiss),
   ("MOTP", savediv dsum nc),
   ("MOTA", fvOneSub (savediv (nmiss + nswitch + nfp) ng)),
   ("Precision", savediv nc (nfp + nc)),
   ("Recall", savediv nc ng),
   ("Frag", FV.fin (fragTotal data : ℚ)),
   ("Objs", FV.fin ((objCounts data).length : ℚ)),
   ("MT", FV.fin (((ratios.filter (fun p => p.2 ≥ 0.8)).length : ℚ))),
   ("PT", FV.fin (((ratios.filter (fun p => p.2 ≥ 0.2 ∧ p.2 < 0.8)).length : ℚ))),
   ("ML", FV.fin (((ratios.filter (fun p => p.2 < 0.2)).length : ℚ)))]

/-
  The registered metric functions of metrics.py lines 59-124 that the
  claims are about.  Values a metric function can produce are embedded as
  PyVal; a function that raises is embedded in Except.
-/

inductive PyVal where
  | none
  | num (q : ℚ)
  | series (entries : List (String × ℚ))
deriving DecidableEq

/-- metrics.py lines 77-78 (num_misses): the body evaluates
float(df.Type.isin(['MISS']).sum()) but has no return statement, so the
call evaluates the count, discards it and returns None. -/
def num_misses (df : EventLog) : PyVal :=
  let _count := countType df "MISS"
  PyVal.none

/-- metrics.py line 63 (obj_frequencies): df.OId.value_counts(). -/
def obj_frequencies (df : EventLog) : List (String × ℚ) :=
  valueCounts (df.filterMap (fun r => r.oid))

/-- metrics.py lines 86-88 (track_ratios): the body reads the module-level
name data — which is only ever a local of compute_metrics/summarize — so
the first expression, data[df.Type != 'MISS'], raises NameError before
either argument is used. -/
def track_ratios (df : EventLog) (freqs : List (String × ℚ)) :
    Except String (List (String × ℚ)) :=
  Except.error "NameError: name data is not defined"

/-- metrics.py lines 90-91 (mostly_tracked): the body reads the undefined
name track_ratio (the parameter is named track_ratios), raising NameError
before the comparison with 0.8 happens. -/
def mostly_tracked (df : EventLog) (ratios : List (String × ℚ)) : Except String ℚ :=
  Except.error "NameError: name track_ratio is not defined"

/-- metrics.py lines 96-97 (mostly_lost): same undefined name track_ratio,
used twice. -/
def mostly_lost (df : EventLog) (ratios : List (String × ℚ)) : Except String ℚ :=
  Except.error "NameError: name track_ratio is not defined"

/-
  metrics.py lines 12-57: the MetricsContainer dependency-graph evaluator.
  A registry entry is a name, the declared dependency names and the
  compute function.  _compute's recursion is embedded with explicit fuel:
  outcome outOfFuel is reached exactly when the Python recursion nests
  deeper than the fuel, i.e. for every fuel on a dependency cycle (Python
  has no cycle handling and recurses until the interpreter's stack is
  exhausted).  The cache dict is an association list whose lookup finds
  the most recent binding; calls records every invocation of a metric's
  compute function, in order.
-/

structure MetricDef where
  name : String
  deps : List String
  fnc : EventLog → List PyVal → PyVal

structure CState where
  cache : List (String × PyVal)
  calls : List String
deriving DecidableEq

inductive EvalRes (α : Type) where
  | ok (a : α)
  | err (msg : String)
  | outOfFuel
deriving DecidableEq

/-- The dependency loop of _compute (metrics.py lines 52-56): for each
depname in order, reuse the cached value if present, otherwise compute it
via step and store it under depname; collect the values. -/
def runDeps (step : String → CState → EvalRes (PyVal × CState)) :
    List String → CState → EvalRes (List PyVal × CState)
  | [], s => .ok ([], s)
  | d :: ds, s =>
    match s.cache.lookup d with
    | some v =>
      match runDeps step ds s with
      | .ok (vs, s') => .ok (v :: vs, s')
      | .err e => .err e
      | .outOfFuel => .outOfFuel
    | none =>
      match step d s with
      | .ok (v, s1) =>
        match runDeps step ds ⟨(d, v) :: s1.cache, s1.calls⟩ with
        | .ok (vs, s') => .ok (v :: vs, s')
        | .err e => .err e
        | .outOfFuel => .outOfFuel
      | .err e => .err e
      | .outOfFuel => .outOfFuel

/-- metrics.py lines 49-57 (MetricsContainer._compute): assert the name is
registered (the AssertionError names the requester), resolve the
dependencies through the cache, then unconditionally invoke the metric's
function on the event log and the dependency values. -/
def computeM (reg : List MetricDef) (df : EventLog) :
    Nat → String → String → CState → EvalRes (PyVal × CState)
  | 0, _, _, _ => .outOfFuel
  | fuel + 1, nm, parent, s =>
    match reg.find? (fun m => m.name = nm) with
    | none => .err ("Cannot find metric " ++ nm ++ " required by " ++ parent ++ ".")
    | some m =>
      match runDeps (fun d s' => computeM reg df fuel d nm s') m.deps s with
      | .ok (vals, s1) => .ok (m.fnc df vals, ⟨s1.cache, s1.calls ++ [nm]⟩)
      | .err e => .err e
      | .outOfFuel => .outOfFuel

/-- The loop of MetricsContainer.summarize (metrics.py lines 44-45): each
requested name is recomputed via _compute — without consulting the cache —
and the result is stored under that name. -/
def summarizeLoop (reg : List MetricDef) (df : EventLog) (fuel : Nat) :
    List String → CState → EvalRes CState
  | [], s => .ok s
  | nm :: ns, s =>
    match computeM reg df fuel nm "summarize" s with
    | .ok (v, s1) => summarizeLoop reg df fuel ns ⟨(nm, v) :: s1.cache, s1.calls⟩
    | .err e => .err e
    | .outOfFuel => .outOfFuel

/-- metrics.py lines 38-47 (MetricsContainer.summarize): start from an
empty cache, compute every requested metric (all registered names when the
request is omitted), and return the OrderedDict pairing each requested
name — first-occurrence order, as dict insertion — with its final cached
value. -/
def summarizeM (reg : List MetricDef) (df : EventLog) (fuel : Nat)
    (metrics : Option (List String)) : EvalRes (List (String × PyVal) × CState) :=
  let ms := match metrics with
    | some l => l
    | none => reg.map (fun m => m.name)
  match summarizeLoop reg df fuel ms ⟨[], []⟩ with
  | .ok s => .ok ((dedupKeys ms).map (fun k => (k, (s.cache.lookup k).getD PyVal.none)), s)
  | .err e => .err e
  | .outOfFuel => .outOfFuel

/-- The call log of a summarizeM outcome (empty unless it succeeded). -/
def callsOf (r : EvalRes (List (String × PyVal) × CState)) : List String :=
  match r with
  | .ok p => p.2.calls
  | _ => []

/-
  metrics.py lines 249-285 (module-level summarize).  Row labels are
  either the supplied names or positional indices; because names is only
  wrapped into a one-element list when it is NOT an instance of
  collections.Iterable, and Python strings are Iterable, a single string
  is kept as-is and zip pairs each accumulator with one character.
  zip truncates to the shorter of names and accumulators, and
  pd.concat raises ValueError when given no objects.
-/

inductive Label where
  | nat (n : Nat)
  | str (s : String)
deriving DecidableEq

inductive NamesArg where
  | omitted
  | ofString (s : String)
  | ofList (labels : List Label)

/-- metrics.py lines 249-285 (summarize): compute the metric table of each
accumulator and concatenate them with the paired labels as row index. -/
def summarizeEvents (accs : List EventLog) (names : NamesArg) :
    Except String (List (Label × List (String × FV))) :=
  let labels : List Label :=
    match names with
    | .omitted => (List.range accs.length).map Label.nat
    | .ofString s => s.toList.map (fun c => Label.str (String.singleton c))
    | .ofList l => l
  let dfs := (labels.zip accs).map (fun p => (p.1, compute_metrics p.2))
  match dfs with
  | [] => .error "ValueError: No objects to concatenate"
  | _ => .ok dfs

/-
  Example registries for the evaluator claims.
-/

/-- A two-node registry: metric a depends on b (a returns its dependency
value, b returns the constant 7). -/
def regDup : List MetricDef :=
  [⟨"a", ["b"], fun _ vs => vs.headD PyVal.none⟩,
   ⟨"b", [], fun _ _ => PyVal.num 7⟩]

/-- A cyclic registry: a depends on b and b depends on a. -/
def cycReg : List MetricDef :=
  [⟨"a", ["b"], fun _ _ => PyVal.num 0⟩,
   ⟨"b", ["a"], fun _ _ => PyVal.num 0⟩]

-- Sanity: one summarize call over regDup, requesting "a" twice.
example :
    summarizeM regDup [] 5 (some ["a", "a"]) =
      .ok ([("a", PyVal.num 7)],
        ⟨[("a", PyVal.num 7), ("a", PyVal.num 7), ("b", PyVal.num 7)], ["b", "a", "a"]⟩) := by
  decide

/-- Claim C3 (counterexample): within one summarize call over regDup,
requesting metric "a" twice runs a's compute function twice — the call log
is ["b", "a", "a"], so the compute function of the requested name does NOT
execute exactly once.  (The dependency "b" does execute exactly once.) -/
theorem summarize_duplicate_request_recomputes :
    callsOf (summarizeM regDup [] 5 (some ["a", "a"])) = ["b", "a", "a"] := by
  decide

/-- Claim C3 (amended): dependencies already in the cache are returned
from the cache with no further compute-function execution and no state
change (memoization works for dependency resolution), and each computed
value is cached under its metric's name; but the top-level summarize loop
does not consult the cache, so a metric requested twice has its compute
function executed once per request — with identical resulting values,
since compute functions are deterministic.  Illustrated on regDup: the
result maps "a" to 7 with the dependency "b" executed once and "a"
executed twice. -/
theorem evaluate_memoization_amended :
    (∀ (step : String → CState → EvalRes (PyVal × CState)) (ds : List String) (s : CState),
        (∀ d ∈ ds, (s.cache.lookup d).isSome) →
        runDeps step ds s =
          .ok (ds.map (fun d => (s.cache.lookup d).getD PyVal.none), s)) ∧
    summarizeM regDup [] 5 (some ["a", "a"]) =
      .ok ([("a", PyVal.num 7)],
        ⟨[("a", PyVal.num 7), ("a", PyVal.num 7), ("b", PyVal.num 7)], ["b", "a", "a"]⟩) := by
  constructor
  · intro step ds s h
    induction ds with
    | nil => simp [runDeps]
    | cons d ds ih =>
      have hd := h d (by simp)
      obtain ⟨v, hv⟩ := Option.isSome_iff_exists.mp hd
      have hrest : ∀ x ∈ ds, (s.cache.lookup x).isSome := fun x hx => h x (by simp [hx])
      simp [runDeps, hv, ih hrest]
  · decide

/-- Claim C3 (witness for the amended theorem): a one-element dependency
list whose name is already cached resolves from the cache without
executing anything. -/
theorem evaluate_memoization_amended_witness :
    runDeps (fun _ _ => EvalRes.outOfFuel) ["b"] ⟨[("b", PyVal.num 7)], []⟩ =
      .ok (["b"].map (fun d =>
        ((⟨[("b", PyVal.num 7)], []⟩ : CState).cache.lookup d).getD PyVal.none),
        ⟨[("b", PyVal.num 7)], []⟩) :=
  evaluate_memoization_amended.1 (fun _ _ => EvalRes.outOfFuel) ["b"]
    ⟨[("b", PyVal.num 7)], []⟩ (by decide)

/-- Claim C4: the metrics container performs no cycle detection — on the
cyclic registry cycReg (a depends on b, b depends on a), _compute from an
empty cache recurses one level deeper for every unit of fuel and never
produces a value or an error report, for every fuel bound: the Python
original recurses until the interpreter stack is exhausted instead of
reporting a configuration error. -/
theorem metric_cycle_unbounded_recursion :
    ∀ (df : EventLog) (parent : String) (fuel : Nat),
      computeM cycReg df fuel "a" parent ⟨[], []⟩ = .outOfFuel ∧
      computeM cycReg df fuel "b" parent ⟨[], []⟩ = .outOfFuel := by
  intro df parent fuel
  induction fuel generalizing parent with
  | zero => exact ⟨rfl, rfl⟩
  | succ f ih =>
    constructor
    · have hb := (ih "a").2
      simp only [computeM, cycReg, runDeps, List.find?, List.lookup]
      simp only [show decide True = true from rfl, show decide ("b" = "a") = false from rfl]
      simp only [runDeps, List.lookup]
      simp only [cycReg] at hb
      rw [hb]
    · have ha := (ih "b").1
      simp only [computeM, cycReg, runDeps, List.find?, List.lookup]
      simp only [show decide True = true from rfl, show decide ("a" = "b") = false from rfl]
      simp only [runDeps, List.lookup]
      simp only [cycReg] at ha
      rw [ha]

/-
  Example event logs for the metric-definition claims.
-/

/-- One frame with a single MISS row for object o1. -/
def exLogMiss : EventLog := [⟨0, 0, "MISS", some "o1", none, none⟩]

/-- One frame with a single MATCH row for object o1 at distance 1/2. -/
def exLogMatch : EventLog := [⟨0, 0, "MATCH", some "o1", some "h1", some (1 / 2)⟩]

/-- Claim C5: the registered num_misses has no return statement, so it
returns None for every event log — here an event log with exactly one
MISS row, whose MISS count is 1; the standalone compute_metrics path in
the very same file keeps the count and reports Miss = 1. -/
theorem num_misses_returns_none :
    num_misses exLogMiss = PyVal.none ∧
    countType exLogMiss "MISS" = 1 ∧
    (compute_metrics exLogMiss).lookup "Miss" = some (FV.fin 1) := by
  refine ⟨rfl, ?_, ?_⟩
  · norm_num [countType, exLogMiss, List.filter]
  · simp [compute_metrics, countType, exLogMiss, List.filter, List.filterMap,
      List.lookup, savediv, fvOneSub, dedupKeys, valueCounts, objCounts, trackedCounts,
      trackRatioSeries, fragTotal, fragOf, firstNonMiss, countRises, missFlag] <;> norm_num

/-- Claim C6: the registered track_ratios / mostly_tracked / mostly_lost
all raise NameError (undefined names data and track_ratio) on every input
— here a log with one always-tracked object — while the standalone
compute_metrics path of the same file computes the intended
classification: track ratio 1 for o1, hence MT = 1 and ML = 0. -/
theorem mostly_tracked_lost_name_error :
    track_ratios exLogMatch (obj_frequencies exLogMatch) =
      Except.error "NameError: name data is not defined" ∧
    mostly_tracked exLogMatch (trackRatioSeries exLogMatch) =
      Except.error "NameError: name track_ratio is not defined" ∧
    mostly_lost exLogMatch (trackRatioSeries exLogMatch) =
      Except.error "NameError: name track_ratio is not defined" ∧
    trackRatioSeries exLogMatch = [("o1", 1)] ∧
    (compute_metrics exLogMatch).lookup "MT" = some (FV.fin 1) ∧
    (compute_metrics exLogMatch).lookup "ML" = some (FV.fin 0) := by
  refine ⟨rfl, rfl, rfl, ?_, ?_, ?_⟩
  · simp [trackRatioSeries, objCounts, trackedCounts, valueCounts, dedupKeys,
      exLogMatch, List.filter, List.filterMap, List.lookup] <;> norm_num
  · simp [compute_metrics, countType, exLogMatch, List.filter, List.filterMap,
      List.lookup, savediv, fvOneSub, dedupKeys, valueCounts, objCounts, trackedCounts,
      trackRatioSeries, fragTotal, fragOf, firstNonMiss, countRises, missFlag] <;> norm_num
  · simp [compute_metrics, countType, exLogMatch, List.filter, List.filterMap,
      List.lookup, savediv, fvOneSub, dedupKeys, valueCounts, objCounts, trackedCounts,
      trackRatioSeries, fragTotal, fragOf, firstNonMiss, countRises, missFlag] <;> norm_num

/-
  Sentinel-substitution lemmas (lap.py lines 45-52).
-/

/-- Entry access through an entrywise map of the whole matrix. -/
theorem entryF_matrix_map (g : FV → FV) (m : List (List FV)) (i j : Nat) :
    entryF (m.map (fun row => row.map g)) i j = (entryF m i j).map g := by
  unfold entryF List.getD
  rw [List.get?_map]
  cases m.get? i with
  | none => simp
  | some row => simp [List.get?_map]

/-- A matrix with a non-finite entry has anyNonFinite = true. -/
theorem anyNonFinite_of_entry {m : List (List FV)} {i j : Nat} {v : FV}
    (hv : entryF m i j = some v) (hnf : v.isFinite = false) : anyNonFinite m = true := by
  unfold entryF List.getD at hv
  cases hrow : m.get? i with
  | none => rw [hrow] at hv; simp at hv
  | some row =>
      rw [hrow] at hv
      simp only [Option.getD_some] at hv
      have hrm : row ∈ m := List.get?_mem hrow
      have hvm : v ∈ row := List.get?_mem hv
      unfold anyNonFinite
      rw [List.any_eq_true]
      exact ⟨row, hrm, by rw [List.any_eq_true]; exact ⟨v, hvm, by simp [hnf]⟩⟩

/-- Claim C2 (counterexample): on the matrix [[0, inf]] the sentinel that
replaces the non-finite entry equals 2 * (max finite cost) + 1 = 1; it is
not strictly greater than that bound, refuting the claim as stated. -/
theorem sentinel_not_strictly_greater :
    entryF (scipyPre [[FV.fin 0, FV.inf]]) 0 1 =
      some (FV.fin (INVDIST [[FV.fin 0, FV.inf]])) ∧
    INVDIST [[FV.fin 0, FV.inf]] =
      2 * listMaxQ (finiteVals [[FV.fin 0, FV.inf]]) + 1 ∧
    ¬ INVDIST [[FV.fin 0, FV.inf]] >
      2 * listMaxQ (finiteVals [[FV.fin 0, FV.inf]]) + 1 := by
  refine ⟨?_, ?_, ?_⟩
  · simp [entryF, scipyPre, anyNonFinite, FV.isFinite, INVDIST, finiteVals, FV.toFinite,
      listMaxQ, List.getD, List.filterMap] <;> norm_num
  · simp [INVDIST, finiteVals, FV.toFinite, listMaxQ, List.filterMap] <;> norm_num
  · simp [INVDIST, finiteVals, FV.toFinite, listMaxQ, List.filterMap] <;> norm_num

/-- Claim C2 (amended): before the finite-only scipy backend is invoked,
every non-finite cost is replaced by the sentinel INVDIST, which EQUALS
2 * (max finite cost) + 1 when a finite cost exists and is 1 otherwise
(it is not strictly greater than that quantity); finite entries are
passed through unchanged. -/
theorem sentinel_substitution (m : List (List FV)) (i j : Nat) (v : FV)
    (hv : entryF m i j = some v) (hnf : v.isFinite = false) :
    entryF (scipyPre m) i j = some (FV.fin (INVDIST m)) ∧
    (finiteVals m = [] → INVDIST m = 1) ∧
    (finiteVals m ≠ [] → INVDIST m = 2 * listMaxQ (finiteVals m) + 1) ∧
    (∀ i' j' w, entryF m i' j' = some w → w.isFinite = true →
      entryF (scipyPre m) i' j' = some w) := by
  have hany := anyNonFinite_of_entry hv hnf
  refine ⟨?_, ?_, ?_, ?_⟩
  · unfold scipyPre
    rw [hany]
    simp only [if_true]
    rw [entryF_matrix_map, hv]
    simp [hnf]
  · intro h; simp [INVDIST, h]
  · intro h; simp [INVDIST, h]
  · intro i' j' w hw hfin
    unfold scipyPre
    rw [hany]
    simp only [if_true]
    rw [entryF_matrix_map, hw]
    simp [hfin]

/-- Claim C2 (witness): the amended substitution applied to the concrete
matrix [[0, inf]] at the non-finite entry (0, 1). -/
theorem sentinel_substitution_witness :
    entryF [[FV.fin 0, FV.inf]] 0 1 = some FV.inf ∧
    entryF (scipyPre [[FV.fin 0, FV.inf]]) 0 1 =
      some (FV.fin (INVDIST [[FV.fin 0, FV.inf]])) :=
  ⟨by decide, (sentinel_substitution [[FV.fin 0, FV.inf]] 0 1 FV.inf (by decide) rfl).1⟩

/-- Claim C10: neither mutating adapter writes through the caller's array
slot — lsa_solve_scipy copies before substituting INVDIST, and
lsa_solve_munkres copies (and re-copies via astype) before substituting
DISALLOWED — so the caller's cost matrix is unchanged, whatever fresh
slots the copies get. -/
theorem adapters_preserve_caller_matrix (env : LapEnv) (st : Store)
    (cid fid fid1 fid2 : Nat)
    (h1 : fid ≠ cid) (h2 : fid1 ≠ cid) (h3 : fid2 ≠ cid) :
    (lsa_solve_scipy_heap st cid fid).1 cid = st cid ∧
    (lsa_solve_munkres_heap env st cid fid1 fid2).1 cid = st cid := by
  constructor
  · by_cases h : anyNonFinite (st cid) <;>
      simp [lsa_solve_scipy_heap, h, storeSet, Ne.symm h1]
  · by_cases h : anyNonFinite (st cid) <;>
      simp [lsa_solve_munkres_heap, h, storeSet, Ne.symm h2, Ne.symm h3]

def envW : LapEnv :=
  ⟨"scipy", fun _ => 1, fun _ => OrtoolsOutcome.notOptimal, fun _ => [], fun _ => ([], [])⟩

def stW : Store := fun _ => [[FV.nan]]

/-- Claim C10 (witness): a store whose slot 0 holds the all-NaN caller
matrix is untouched at slot 0 by both adapters. -/
theorem adapters_preserve_caller_matrix_witness :
    (lsa_solve_scipy_heap stW 0 1).1 0 = stW 0 ∧
    (lsa_solve_munkres_heap envW stW 0 1 2).1 0 = stW 0 :=
  adapters_preserve_caller_matrix envW stW 0 1 1 2
    (by decide) (by decide) (by decide)

/-- Claim C8: when the ortools engine fails to reach OPTIMAL and the
configured default solver is a different solver (one of the lowercase
names init_standard_solvers can select), lsa_solve_ortools returns
exactly what linear_sum_assignment returns for the original, unscaled
cost matrix under the default solver, and no error is surfaced by the
fallback branch itself. -/
theorem ortools_fallback_resolves_with_default (env : LapEnv) (costs : List (List FV))
    (heng : env.ortoolsEngine (ortoolsArcs env costs) = OrtoolsOutcome.notOptimal)
    (hd : env.defaultSolver = "scipy" ∨ env.defaultSolver = "munkres") :
    lsa_solve_ortools env costs = linear_sum_assignment env (some env.defaultSolver) costs ∧
    lsa_solve_ortools env costs ≠ Except.error "AssertionError" := by
  rcases hd with h | h <;>
    constructor <;>
      simp [lsa_solve_ortools, linear_sum_assignment, dispatchNonOrtools, heng, h,
        show lowerStr "scipy" = "scipy" from by decide,
        show lowerStr "munkres" = "munkres" from by decide]

/-- Claim C8 (witness): the concrete environment envW (engine always
non-optimal, default scipy) on the matrix [[1]]. -/
theorem ortools_fallback_witness :
    lsa_solve_ortools envW [[FV.fin 1]] =
      linear_sum_assignment envW (some envW.defaultSolver) [[FV.fin 1]] :=
  (ortools_fallback_resolves_with_default envW [[FV.fin 1]] rfl (Or.inl rfl)).1

/-- Claim C7 (counterexample): two input logs with an explicitly provided
one-name list do not fail — zip silently truncates, producing a one-row
table for the first log only. -/
theorem summarize_short_names_no_failure :
    summarizeEvents [[], []] (NamesArg.ofList [Label.str "a"]) =
      .ok [(Label.str "a", compute_metrics [])] := rfl

/-- Claim C7 (amended): summarize returns one row per pair obtained by
zipping the labels with the logs — positional labels 0..N-1 when names
are omitted (N rows), the supplied names otherwise (min(K, N) rows, so
surplus logs or names are silently dropped rather than failing) — and
every row carries the same 14 metric columns in fixed order; the call
fails only when the label/log pairing is empty (pd.concat given no
objects raises ValueError). -/
theorem summarize_table_shape (accs : List EventLog) (ls : List Label) :
    (accs ≠ [] →
      summarizeEvents accs NamesArg.omitted =
        .ok ((((List.range accs.length).map Label.nat).zip accs).map
          (fun p => (p.1, compute_metrics p.2)))) ∧
    (ls.zip accs ≠ [] →
      summarizeEvents accs (NamesArg.ofList ls) =
        .ok ((ls.zip accs).map (fun p => (p.1, compute_metrics p.2))) ∧
      ((ls.zip accs).map (fun p => (p.1, compute_metrics p.2))).length =
        min ls.length accs.length) ∧
    (ls.zip accs = [] →
      summarizeEvents accs (NamesArg.ofList ls) =
        .error "ValueError: No objects to concatenate") ∧
    (∀ df : EventLog, (compute_metrics df).map Prod.fst =
      ["Frames", "Match", "Switch", "FalsePos", "Miss", "MOTP", "MOTA", "Precision",
       "Recall", "Frag", "Objs", "MT", "PT", "ML"]) := by
  refine ⟨?_, ?_, ?_, ?_⟩
  · intro h
    have hz : ((List.range accs.length).map Label.nat).zip accs ≠ [] := by
      intro hc
      have hlen := congrArg List.length hc
      simp [List.length_zip] at hlen
      exact h hlen
    simp only [summarizeEvents]
    cases hm : (((List.range accs.length).map Label.nat).zip accs).map
        (fun p => (p.1, compute_metrics p.2)) with
    | nil => exact absurd (List.map_eq_nil_iff.mp hm) hz
    | cons x xs => rfl
  · intro h
    refine ⟨?_, ?_⟩
    · simp only [summarizeEvents]
      cases hm : (ls.zip accs).map (fun p => (p.1, compute_metrics p.2)) with
      | nil => exact absurd (List.map_eq_nil_iff.mp hm) h
      | cons x xs => rfl
    · simp [List.length_zip]
  · intro h
    simp only [summarizeEvents]
    rw [h]
    rfl
  · intro df
    rfl

/-- Claim C7 (witness): one log with one explicit name label. -/
theorem summarize_table_shape_witness :
    summarizeEvents [([] : EventLog)] (NamesArg.ofList [Label.str "x"]) =
      .ok (([Label.str "x"].zip [([] : EventLog)]).map
        (fun p => (p.1, compute_metrics p.2))) :=
  ((summarize_table_shape [([] : EventLog)] [Label.str "x"]).2.1 (by decide)).1

/-- Claim C9 (counterexample): with the empty string as names and one
input accumulator, zip pairs nothing, so instead of an output table with
the input dropped, pd.concat raises ValueError. -/
theorem summarize_empty_string_value_error :
    summarizeEvents [([] : EventLog)] (NamesArg.ofString "") =
      .error "ValueError: No objects to concatenate" := rfl

/-- Claim C9 (amended): a single string passed as names is treated as an
iterable of characters — each input accumulator is paired with one
character as its row label and inputs beyond the string's length are
silently dropped — provided at least one (character, input) pair exists;
with an empty pairing (empty string, or no inputs) the call instead
raises ValueError from pd.concat. -/
theorem summarize_string_names (accs : List EventLog) (s : String)
    (h : s.toList.zip accs ≠ []) :
    summarizeEvents accs (NamesArg.ofString s) =
      .ok ((s.toList.zip accs).map
        (fun p => (Label.str (String.singleton p.1), compute_metrics p.2))) ∧
    ((s.toList.zip accs).map
        (fun p => (Label.str (String.singleton p.1), compute_metrics p.2))).length =
      min s.length accs.length := by
  have hdfs : ((s.toList.map (fun c => Label.str (String.singleton c))).zip accs).map
      (fun p => (p.1, compute_metrics p.2)) =
      (s.toList.zip accs).map
        (fun p => (Label.str (String.singleton p.1), compute_metrics p.2)) := by
    rw [List.zip_map_left, List.map_map]
    rfl
  constructor
  · simp only [summarizeEvents]
    rw [hdfs]
    cases hm : (s.toList.zip accs).map
        (fun p => (Label.str (String.singleton p.1), compute_metrics p.2)) with
    | nil => exact absurd (List.map_eq_nil_iff.mp hm) h
    | cons x xs => rfl
  · rw [List.length_map, List.length_zip]
    rfl

/-- Claim C9 (witness): the two-character string "ab" with one input log:
the log is paired with character a; the character b pairs nothing. -/
theorem summarize_string_names_witness :
    summarizeEvents [([] : EventLog)] (NamesArg.ofString "ab") =
      .ok ((("ab".toList.zip [([] : EventLog)])).map
        (fun p => (Label.str (String.singleton p.1), compute_metrics p.2))) :=
  (summarize_string_names [([] : EventLog)] "ab" (by decide)).1

/-
  Lemmas about the scipy solver model: the returned assignment is always
  complete (min(n, m) pairs with in-range indices).
-/

theorem argminQ_mem {α : Type} (f : α → ℚ) :
    ∀ (l : List α) (a : α), argminQ f l = some a → a ∈ l := by
  intro l
  induction l with
  | nil => intro a h; simp [argminQ] at h
  | cons x xs ih =>
    intro a h
    rw [argminQ] at h
    cases hxs : argminQ f xs with
    | none =>
      simp only [hxs] at h
      have hx : x = a := Option.some.inj h
      exact hx ▸ List.mem_cons_self x xs
    | some y =>
      simp only [hxs] at h
      by_cases hlt : f y < f x
      · rw [if_pos hlt] at h
        have hy : y = a := Option.some.inj h
        exact List.mem_cons_of_mem x (hy ▸ ih y hxs)
      · rw [if_neg hlt] at h
        have hx : x = a := Option.some.inj h
        exact hx ▸ List.mem_cons_self x xs

theorem argminQ_isSome {α : Type} (f : α → ℚ) (l : List α) (h : l ≠ []) :
    ∃ a, argminQ f l = some a := by
  cases l with
  | nil => exact absurd rfl h
  | cons x xs =>
    cases hxs : argminQ f xs with
    | none => exact ⟨x, by rw [argminQ]; simp only [hxs]⟩
    | some y =>
      by_cases hlt : f y < f x
      · exact ⟨y, by rw [argminQ]; simp only [hxs]; rw [if_pos hlt]⟩
      · exact ⟨x, by rw [argminQ]; simp only [hxs]; rw [if_neg hlt]⟩

theorem mem_injSeqs_succ {k m : Nat} {t : List Nat} :
    t ∈ injSeqs (k + 1) m ↔
      ∃ c t', c < m ∧ t' ∈ injSeqs k m ∧ c ∉ t' ∧ t = c :: t' := by
  constructor
  · intro h
    rw [injSeqs, List.mem_flatten] at h
    obtain ⟨L, hL, htL⟩ := h
    rw [List.mem_map] at hL
    obtain ⟨c, hc, rfl⟩ := hL
    rw [List.mem_filterMap] at htL
    obtain ⟨t', ht', hg⟩ := htL
    by_cases hmem : c ∈ t'
    · rw [if_pos hmem] at hg; exact absurd hg (by simp)
    · rw [if_neg hmem] at hg
      exact ⟨c, t', List.mem_range.mp hc, ht', hmem, (Option.some.inj hg).symm⟩
  · rintro ⟨c, t', hc, ht', hmem, rfl⟩
    rw [injSeqs, List.mem_flatten]
    refine ⟨(injSeqs k m).filterMap (fun t0 => if c ∈ t0 then none else some (c :: t0)),
      ?_, ?_⟩
    · rw [List.mem_map]; exact ⟨c, List.mem_range.mpr hc, rfl⟩
    · rw [List.mem_filterMap]; exact ⟨t', ht', by rw [if_neg hmem]⟩

theorem injSeqs_length : ∀ {k m : Nat} {t : List Nat}, t ∈ injSeqs k m → t.length = k := by
  intro k
  induction k with
  | zero => intro m t h; rw [injSeqs] at h; simp at h; simp [h]
  | succ k ih =>
    intro m t h
    obtain ⟨c, t', hc, ht', hmem, rfl⟩ := mem_injSeqs_succ.mp h
    simp [ih ht']

theorem injSeqs_bound : ∀ {k m : Nat} {t : List Nat},
    t ∈ injSeqs k m → ∀ x ∈ t, x < m := by
  intro k
  induction k with
  | zero =>
    intro m t h x hx
    rw [injSeqs] at h; simp at h; subst h; simp at hx
  | succ k ih =>
    intro m t h x hx
    obtain ⟨c, t', hc, ht', hmem, rfl⟩ := mem_injSeqs_succ.mp h
    rcases List.mem_cons.mp hx with h1 | h1
    · exact h1 ▸ hc
    · exact ih ht' x h1

theorem revRange_mem_injSeqs : ∀ (k m : Nat), k ≤ m →
    (List.range k).reverse ∈ injSeqs k m := by
  intro k
  induction k with
  | zero => intro m h; rw [injSeqs]; simp
  | succ k ih =>
    intro m h
    have h1 : (List.range (k + 1)).reverse = k :: (List.range k).reverse := by
      rw [List.range_succ, List.reverse_append]; rfl
    rw [h1]
    exact mem_injSeqs_succ.mpr ⟨k, (List.range k).reverse, Nat.lt_of_succ_le h,
      ih m (Nat.le_of_succ_le h), by simp, rfl⟩

theorem injSeqs_ne_nil {k m : Nat} (h : k ≤ m) : injSeqs k m ≠ [] := by
  intro hc
  have hmem := revRange_mem_injSeqs k m h
  rw [hc] at hmem
  exact absurd hmem (List.not_mem_nil _)

theorem insPair_length (p : Nat × Nat) :
    ∀ l : List (Nat × Nat), (insPair p l).length = l.length + 1 := by
  intro l
  induction l with
  | nil => rfl
  | cons q qs ih =>
    rw [insPair]
    by_cases h : p.1 ≤ q.1
    · rw [if_pos h]; rfl
    · rw [if_neg h]; simp [ih]

theorem insSortPairs_length : ∀ l : List (Nat × Nat), (insSortPairs l).length = l.length := by
  intro l
  induction l with
  | nil => rfl
  | cons p ps ih => rw [insSortPairs, insPair_length, ih, List.length_cons]

theorem mem_insPair {x p : Nat × Nat} :
    ∀ {l : List (Nat × Nat)}, x ∈ insPair p l ↔ x = p ∨ x ∈ l := by
  intro l
  induction l with
  | nil => simp [insPair]
  | cons q qs ih =>
    rw [insPair]
    by_cases h : p.1 ≤ q.1
    · rw [if_pos h]; simp [List.mem_cons]
    · rw [if_neg h]; simp [List.mem_cons, ih]; try tauto

theorem mem_insSortPairs {x : Nat × Nat} :
    ∀ {l : List (Nat × Nat)}, x ∈ insSortPairs l ↔ x ∈ l := by
  intro l
  induction l with
  | nil => simp [insSortPairs]
  | cons p ps ih => rw [insSortPairs, mem_insPair]; simp [ih, List.mem_cons]; try tauto

/-- The scipy model always returns a complete assignment: min(n, m) row
and column indices, all in range. -/
theorem scipySolveModel_complete (c : List (List ℚ)) :
    (scipySolveModel c).1.length = min c.length (c.headD []).length ∧
    (scipySolveModel c).2.length = min c.length (c.headD []).length ∧
    (∀ r ∈ (scipySolveModel c).1, r < c.length) ∧
    (∀ j ∈ (scipySolveModel c).2, j < (c.headD []).length) := by
  simp only [List.headD_eq_head?]
  by_cases h : c.length ≤ (c.head?.getD []).length
  · obtain ⟨cols, hcols⟩ := argminQ_isSome
      (fun cols => assignCost c ((List.range c.length).zip cols))
      (injSeqs c.length (c.head?.getD []).length) (injSeqs_ne_nil h)
    have hmem := argminQ_mem _ _ _ hcols
    have hres : scipySolveModel c = (List.range c.length, cols) := by
      simp only [scipySolveModel, List.headD_eq_head?]
      rw [if_pos h, hcols]
    rw [hres]
    exact ⟨by simp [Nat.min_eq_left h], by simp [injSeqs_length hmem, Nat.min_eq_left h],
      fun r hr => List.mem_range.mp hr, fun j hj => injSeqs_bound hmem j hj⟩
  · have hlt : (c.head?.getD []).length < c.length := Nat.not_le.mp h
    have hle : (c.head?.getD []).length ≤ c.length := Nat.le_of_lt hlt
    obtain ⟨rows, hrows⟩ := argminQ_isSome
      (fun rows => assignCost c (rows.zip (List.range (c.head?.getD []).length)))
      (injSeqs (c.head?.getD []).length c.length) (injSeqs_ne_nil hle)
    have hmem := argminQ_mem _ _ _ hrows
    have hlen := injSeqs_length hmem
    have hres : scipySolveModel c =
        ((insSortPairs (rows.zip (List.range (c.head?.getD []).length))).map Prod.fst,
         (insSortPairs (rows.zip (List.range (c.head?.getD []).length))).map Prod.snd) := by
      simp only [scipySolveModel, List.headD_eq_head?]
      rw [if_neg h, hrows]
    rw [hres]
    have hzlen : (rows.zip (List.range (c.head?.getD []).length)).length =
        (c.head?.getD []).length := by
      simp [List.length_zip, hlen]
    have hmin : min c.length (c.head?.getD []).length = (c.head?.getD []).length :=
      Nat.min_eq_right hle
    refine ⟨by simp [insSortPairs_length, hzlen, hmin],
      by simp [insSortPairs_length, hzlen, hmin], ?_, ?_⟩
    · intro r hr
      rw [List.mem_map] at hr
      obtain ⟨p, hp, rfl⟩ := hr
      rw [mem_insSortPairs] at hp
      exact injSeqs_bound hmem _ (List.of_mem_zip hp).1
    · intro j hj
      rw [List.mem_map] at hj
      obtain ⟨p, hp, rfl⟩ := hj
      rw [mem_insSortPairs] at hp
      exact List.mem_range.mp (List.of_mem_zip hp).2

/-- The sentinel preprocessing and the rational conversion preserve the
shape of the matrix. -/
theorem scipy_pipeline_shape (m : List (List FV)) :
    (toQmat (scipyPre m)).length = m.length ∧
    ((toQmat (scipyPre m)).headD []).length = width m := by
  cases m with
  | nil => constructor <;> simp [toQmat, scipyPre, anyNonFinite, width]
  | cons r rs =>
    unfold scipyPre
    by_cases h : anyNonFinite (r :: rs)
    · rw [if_pos h]; constructor <;> simp [toQmat, width]
    · rw [if_neg h]; constructor <;> simp [toQmat, width]

/-- Claim C1 (counterexample): on the 1x1 entirely non-finite matrix
[[inf]] the scipy adapter returns the non-empty assignment ([0], [0]);
the returned pair (0, 0) is exactly the entry whose original cost is
non-finite, so the result is neither empty nor sentinel-free. -/
theorem scipy_nonfinite_pair_in_result :
    lsa_solve_scipy [[FV.inf]] = ([0], [0]) ∧ FV.isFinite FV.inf = false := by
  refine ⟨?_, rfl⟩
  norm_num [lsa_solve_scipy, scipySolveModel, toQmat, scipyPre, anyNonFinite, FV.isFinite,
    toQ, INVDIST, finiteVals, FV.toFinite, injSeqs, argminQ, assignCost, entryQ, List.getD,
    List.range_succ, List.filterMap]

/-- Claim C1 (amended): on a rectangular non-empty matrix whose entries
are ALL non-finite, the scipy adapter does not return empty index
sequences: after sentinel substitution scipy produces a complete
assignment of min(n, m) pairs, every one of which points at an entry
whose original cost is non-finite. -/
theorem scipy_allNonFinite_complete_assignment (m : List (List FV))
    (hnf : ∀ row ∈ m, ∀ v ∈ row, v.isFinite = false)
    (hrect : ∀ row ∈ m, row.length = width m)
    (hne : m ≠ []) (hw : width m ≠ 0) :
    (lsa_solve_scipy m).1.length = min m.length (width m) ∧
    (lsa_solve_scipy m).2.length = min m.length (width m) ∧
    (lsa_solve_scipy m).1 ≠ [] ∧
    (∀ p ∈ (lsa_solve_scipy m).1.zip (lsa_solve_scipy m).2,
      ∃ v, entryF m p.1 p.2 = some v ∧ v.isFinite = false) := by
  obtain ⟨hlen, hhead⟩ := scipy_pipeline_shape m
  have hc := scipySolveModel_complete (toQmat (scipyPre m))
  rw [hlen, hhead] at hc
  have h1 : (lsa_solve_scipy m).1.length = min m.length (width m) := hc.1
  have h2 : (lsa_solve_scipy m).2.length = min m.length (width m) := hc.2.1
  refine ⟨h1, h2, ?_, ?_⟩
  · intro hnil
    rw [hnil] at h1
    rcases Nat.min_eq_zero_iff.mp h1.symm with h0 | h0
    · exact hne (List.length_eq_zero.mp h0)
    · exact hw h0
  · intro p hp
    have hb1 : p.1 < m.length := hc.2.2.1 p.1 (List.of_mem_zip hp).1
    have hb2 : p.2 < width m := hc.2.2.2 p.2 (List.of_mem_zip hp).2
    cases hrow : m.get? p.1 with
    | none =>
      rw [List.get?_eq_none] at hrow
      omega
    | some row =>
      have hrm : row ∈ m := List.get?_mem hrow
      have hrl : row.length = width m := hrect row hrm
      cases hv : row.get? p.2 with
      | none =>
        rw [List.get?_eq_none] at hv
        omega
      | some v =>
        refine ⟨v, ?_, hnf row hrm v (List.get?_mem hv)⟩
        unfold entryF List.getD
        rw [hrow]
        simpa using hv

/-- Claim C1 (witness): the amended statement on the 1x2 all-non-finite
matrix [[NaN, inf]] — the result is a single pair, not empty. -/
theorem scipy_allNonFinite_witness :
    (lsa_solve_scipy [[FV.nan, FV.inf]]).1.length = min 1 2 ∧
    (lsa_solve_scipy [[FV.nan, FV.inf]]).1 ≠ [] := by
  have h := scipy_allNonFinite_complete_assignment [[FV.nan, FV.inf]]
    (by decide) (by decide) (by decide) (by decide)
  exact ⟨h.1, h.2.2.1⟩
